import Mathlib

/-!
# RatedWheels — verification of the search normalizer and the review endpoint

Shallow embedding of the string-processing and request-handling logic of the
RatedWheels driver-review application:

* `src/app/search/page.tsx` — query normalization (`normalizeQuery`), the
  handle / plate-leading classifiers (`HANDLE_RE`, `PLATE_LEADING_RE` via
  `handleReTest` / `parsePlateLeading`), ILIKE escaping
  (`escapeIlikeLiteral`, `safePrefixIlike`, `buildContainsIlike`), the
  disambiguator gate (`hasAnyDisambiguator`) and the search decision logic of
  the `SearchPage` component (`searchPageDecision`).
* `src/app/api/reviews/route.ts` — the moderation pipeline (`normalize`,
  `clampComment`, `containsSlur`, `containsLinkOrHandle`, `uniqStrings`) and
  the `POST` handler (`POSTreviews`), with the database modelled as explicit
  state plus fault injection for the three inserts.

Strings are modelled as `List Char` (JavaScript strings, read as sequences of
characters).  JavaScript `Number` values for the star rating are modelled as
`Option ℚ`: `some s` is a finite number, `none` covers `NaN`/`±Infinity`
(every value rejected by `Number.isFinite`).
-/

namespace RatedWheels

/-- JavaScript string character class `\s` (also the set stripped by
`String.prototype.trim`): tab, LF, VT, FF, CR, space, NBSP, Ogham space,
the U+2000–U+200A range, LS, PS, NNBSP, MMSP, ideographic space and BOM. -/
def jsSpace (c : Char) : Bool :=
  decide ((9 ≤ c.toNat ∧ c.toNat ≤ 13) ∨ c.toNat = 32 ∨ c.toNat = 160 ∨
    c.toNat = 5760 ∨ (8192 ≤ c.toNat ∧ c.toNat ≤ 8202) ∨ c.toNat = 8232 ∨
    c.toNat = 8233 ∨ c.toNat = 8239 ∨ c.toNat = 8287 ∨ c.toNat = 12288 ∨
    c.toNat = 65279)

/-- `String.prototype.trim`: strip leading and trailing `\s` characters. -/
def trimJS (l : List Char) : List Char :=
  ((l.dropWhile jsSpace).reverse.dropWhile jsSpace).reverse

/-- ASCII fragment of `String.prototype.toLowerCase` (the queries and
handles the spec constrains are ASCII). -/
def toLowerJS (c : Char) : Char :=
  if 65 ≤ c.toNat ∧ c.toNat ≤ 90 then Char.ofNat (c.toNat + 32) else c

/-- ASCII fragment of `String.prototype.toUpperCase`. -/
def toUpperJS (c : Char) : Char :=
  if 97 ≤ c.toNat ∧ c.toNat ≤ 122 then Char.ofNat (c.toNat - 32) else c

/-- One pass of `String.prototype.replace` with a global regex `[class]+`
and a single replacement character: every maximal run of characters
satisfying `p` is replaced by the single character `rep`.  The flag tracks
whether we are inside a run that has already emitted its replacement. -/
def collapseAux (p : Char → Bool) (rep : Char) : Bool → List Char → List Char
  | _, [] => []
  | inRun, c :: cs =>
    if p c then
      if inRun then collapseAux p rep true cs
      else rep :: collapseAux p rep true cs
    else c :: collapseAux p rep false cs

/-- `s.replace(/X+/g, rep)` where `X` is the class decided by `p`. -/
def collapse (p : Char → Bool) (rep : Char) (l : List Char) : List Char :=
  collapseAux p rep false l

/-- Character class `[_\s]` of the first replacement in `normalizeQuery`. -/
def uscoreOrSpace (c : Char) : Bool :=
  c = '_' || jsSpace c

/-- Character class `[-]` of the second replacement in `normalizeQuery`. -/
def isDash (c : Char) : Bool :=
  c = '-'

/-- A character that `normalizeQuery` neither collapses (underscore or
whitespace) nor inserts (a dash): exactly the characters a stripping step
could remove, used to state that the normalizer strips nothing. -/
def plainChar (c : Char) : Bool :=
  !(uscoreOrSpace c) && !(isDash c)

/-- `normalizeQuery` from `src/app/search/page.tsx`:
`raw.trim().toLowerCase().replace(/[_\s]+/g, '-').replace(/[-]+/g, '-')`
(the second regex is written `[-]+` here for `-` followed by `+`). -/
def normalizeQuery (raw : List Char) : List Char :=
  collapse isDash '-' (collapse uscoreOrSpace '-' ((trimJS raw).map toLowerJS))

/-- `[a-z]`. -/
def isLowerAlpha (c : Char) : Bool :=
  decide (97 ≤ c.toNat ∧ c.toNat ≤ 122)

/-- `[0-9]` (the regex class `\d`). -/
def isDigitChar (c : Char) : Bool :=
  decide (48 ≤ c.toNat ∧ c.toNat ≤ 57)

/-- `[a-z0-9]`. -/
def isLowerAlnum (c : Char) : Bool :=
  isLowerAlpha c || isDigitChar c

/-- `HANDLE_RE.test`, with `HANDLE_RE = /^[a-z0-9]{1,4}-[a-z]{2,24}$/`
(the database constraint on driver handles).  A string matches iff it splits
at its first dash into a 1–4 character lower-alphanumeric plate part and a
2–24 character lower-alphabetic name part with nothing left over (neither
class contains a dash, so the split at the first dash is forced). -/
def handleReTest (l : List Char) : Bool :=
  match l.dropWhile (fun c => c ≠ '-') with
  | [] => false
  | _ :: b =>
    decide (1 ≤ (l.takeWhile (fun c => c ≠ '-')).length) &&
    decide ((l.takeWhile (fun c => c ≠ '-')).length ≤ 4) &&
    (l.takeWhile (fun c => c ≠ '-')).all isLowerAlnum &&
    decide (2 ≤ b.length) && decide (b.length ≤ 24) && b.all isLowerAlpha

/-- Result of `parsePlateLeading`: the 4-digit plate (capture group 1) and
the name part (capture group 2, trimmed; source field `namePrefix`). -/
structure PlateParse where
  plate : List Char
  namePart : List Char
deriving DecidableEq, Repr

/-- `parsePlateLeading` from `src/app/search/page.tsx`: match the normalized
query against `PLATE_LEADING_RE = /^(\d{4})(?:-([a-z]{1,24}))?$/` and return
`{ plate: m[1], namePrefix: (m[2] ?? '').trim() }`, or `null` on no match. -/
def parsePlateLeading (l : List Char) : Option PlateParse :=
  if (l.take 4).length = 4 ∧ (l.take 4).all isDigitChar = true then
    match l.drop 4 with
    | [] => some ⟨l.take 4, trimJS []⟩
    | '-' :: b =>
      if 1 ≤ b.length ∧ b.length ≤ 24 ∧ b.all isLowerAlpha = true then
        some ⟨l.take 4, trimJS b⟩
      else none
    | _ => none
  else none

/-- `escapeIlikeLiteral` from `src/app/search/page.tsx`:
`s.replace(/[%_\\]/g, (m) => `\${m}`)` — prefix every `%`, `_` and `\`
with a backslash. -/
def escapeIlikeLiteral : List Char → List Char
  | [] => []
  | c :: cs =>
    if c = '%' ∨ c = '_' ∨ c = '\\' then '\\' :: c :: escapeIlikeLiteral cs
    else c :: escapeIlikeLiteral cs

/-- `safePrefixIlike` from `src/app/search/page.tsx`: the escaped query
followed by a single trailing `%`. -/
def safePrefixIlike (q : List Char) : List Char :=
  escapeIlikeLiteral q ++ ['%']

/-- `buildContainsIlike` from `src/app/search/page.tsx`:
`` `%${escapeIlikeLiteral(v.trim())}%` ``. -/
def buildContainsIlike (v : List Char) : List Char :=
  '%' :: escapeIlikeLiteral (trimJS v) ++ ['%']

/-- `hasAnyDisambiguator` from `src/app/search/page.tsx`:
`Boolean((params.state ?? '').trim() || (params.car_make ?? '').trim())`. -/
def hasAnyDisambiguator (state car_make : List Char) : Bool :=
  decide (trimJS state ≠ []) || decide (trimJS car_make ≠ [])

/-- A row of the `drivers` table as selected by the search page
(`id,driver_handle,display_name,state,car_make`). -/
structure DriverRow where
  id : List Char
  driver_handle : List Char
  display_name : Option (List Char)
  state : Option (List Char)
  car_make : Option (List Char)
deriving DecidableEq, Repr

/-- The `searchParams` of `SearchPage`, after the `String(… ?? '')`
stringification applied by the component (an absent parameter is the empty
string).  The `sort` parameter does not influence the gating logic. -/
structure SearchParams where
  q : List Char
  state : List Char
  car_make : List Char
deriving DecidableEq, Repr

/-- `String(sp.state ?? '').trim().toUpperCase()` — the `initialState`
local of `SearchPage`. -/
def searchInitialState (sp : SearchParams) : List Char :=
  (trimJS sp.state).map toUpperJS

/-- `String(sp.car_make ?? '').trim()` — the `initialCarMake` local of
`SearchPage`. -/
def searchInitialCarMake (sp : SearchParams) : List Char :=
  trimJS sp.car_make

/-- Helper message shown for a query that is not plate-leading at all. -/
def unrecognizedHelper : List Char :=
  "Search using the last 4 digits + first name (example: 8841-mike).".toList

/-- Helper message shown for a plate-only query without a disambiguator. -/
def plateOnlyHelper : List Char :=
  "That’s only the plate. Add a first-name letter (example: 2222-t) or add a detail (state / car make) to narrow.".toList

/-- What the `SearchPage` server component decides to do for a query, as far
as database access is concerned.

* `emptyQuery` — no query typed, nothing fetched.
* `driverFound` — the exact-handle lookup returned a row; the page proceeds
  to load stats/reviews for it.
* `guidance` — a helper message is rendered and **no** driver suggestion
  query is run (`showCreateDriver` records whether the create-driver form is
  offered).
* `suggest` — a prefix `ILIKE` suggestion query over `driver_handle` is run
  with the given pattern, row limit and optional `state` equality /
  `car_make` contains-ILIKE filters. -/
inductive SearchOutcome where
  | emptyQuery
  | driverFound (d : DriverRow)
  | guidance (helperMessage : List Char) (showCreateDriver : Bool)
  | suggest (pattern : List Char) (lim : Nat) (stateFilter : Option (List Char))
      (carMakeFilter : Option (List Char)) (showCreateDriver : Bool)
deriving DecidableEq, Repr

/-- The search-gating logic of `SearchPage` (`src/app/search/page.tsx`,
lines 107–222), with the exact-handle database read modelled by `db`
(the result of `.eq('driver_handle', q).maybeSingle()`; a read error leaves
`driver` null exactly like a miss, so both are `none`). -/
def searchPageDecision (db : List Char → Option DriverRow) (sp : SearchParams) :
    SearchOutcome :=
  let rawQ := trimJS sp.q
  let q := normalizeQuery rawQ
  let disamb := hasAnyDisambiguator (searchInitialState sp) (searchInitialCarMake sp)
  if q = [] then .emptyQuery
  else
    let driver := if handleReTest q then db q else none
    match driver with
    | some d => .driverFound d
    | none =>
      match parsePlateLeading q with
      | none => .guidance unrecognizedHelper false
      | some pp =>
        if q = pp.plate ∧ disamb = false then
          .guidance plateOnlyHelper true
        else
          let pre := if pp.namePart ≠ [] then pp.plate ++ '-' :: pp.namePart
                     else pp.plate ++ ['-']
          .suggest (safePrefixIlike pre) 25
            (if searchInitialState sp ≠ [] then some (searchInitialState sp) else none)
            (if searchInitialCarMake sp ≠ [] then some (buildContainsIlike (searchInitialCarMake sp)) else none)
            true

/-- `suggestions.slice(0, 20)` — the suggestion rows actually rendered
(`src/app/search/page.tsx`, line 486). -/
def renderedSuggestions (s : List DriverRow) : List DriverRow :=
  s.take 20

/-- Token of a Postgres `LIKE`/`ILIKE` pattern: a literal character, the
any-string wildcard `%`, or the any-character wildcard `_`. -/
inductive LikeTok where
  | lit (c : Char)
  | anyStr
  | anyChar
deriving DecidableEq, Repr

/-- Read a Postgres `LIKE`/`ILIKE` pattern into its tokens: a backslash
escapes the following character into a literal (`none` for a dangling
trailing backslash), a bare `%` is the any-string wildcard and a bare `_`
the any-character wildcard; everything else is literal. -/
def lexLike : List Char → Option (List LikeTok)
  | [] => some []
  | '\\' :: [] => none
  | '\\' :: d :: ds => (lexLike ds).map (fun ts => .lit d :: ts)
  | c :: cs =>
    if c = '%' then (lexLike cs).map (fun ts => .anyStr :: ts)
    else if c = '_' then (lexLike cs).map (fun ts => .anyChar :: ts)
    else (lexLike cs).map (fun ts => .lit c :: ts)

/-! ## `src/app/api/reviews/route.ts` — review moderation and persistence -/

/-- `MAX_COMMENT_CHARS` from the route module. -/
def MAX_COMMENT_CHARS : Nat := 500

/-- Zero-width characters stripped by the route `normalize`
(the class `[​-‍﻿]`). -/
def isZeroWidth (c : Char) : Bool :=
  (8203 ≤ c.toNat && c.toNat ≤ 8205) || c.toNat = 65279

/-- `normalize` from the route: `String(text ?? '')` with zero-width
characters removed, whitespace runs collapsed to single spaces
(`replace(/\s+/g, ' ')`) and the result trimmed. -/
def normalizeReviewText (text : List Char) : List Char :=
  trimJS (collapse jsSpace ' ' (text.filter (fun c => !isZeroWidth c)))

/-- `clampComment` from the route: the empty string stays empty, longer
texts are cut to `MAX_COMMENT_CHARS` characters. -/
def clampComment (text : List Char) : List Char :=
  if text = [] then []
  else if MAX_COMMENT_CHARS < text.length then text.take MAX_COMMENT_CHARS
  else text

/-- `SLUR_BLOCKLIST`: the comma-separated operator-supplied environment
value, split on commas, trimmed, lowercased, empty entries dropped. -/
def slurBlocklist (raw : List Char) : List (List Char) :=
  ((raw.splitOn ',').map (fun w => (trimJS w).map toLowerJS)).filter
    (fun w => w ≠ [])

/-- `String.prototype.includes`: does `needle` occur as a contiguous
substring of the haystack? -/
def includesJS (needle : List Char) : List Char → Bool
  | [] => needle.isEmpty
  | c :: cs => needle.isPrefixOf (c :: cs) || includesJS needle cs

/-- `containsSlur` from the route: false for the empty text or empty
blocklist, otherwise true iff some (nonempty) blocklist entry occurs as a
substring of the lowercased text. -/
def containsSlur (bl : List (List Char)) (text : List Char) : Bool :=
  if text = [] ∨ bl = [] then false
  else bl.any (fun s => decide (s ≠ []) && includesJS s (text.map toLowerJS))

/-- `[A-Z]`. -/
def isUpperAlpha (c : Char) : Bool :=
  decide (65 ≤ c.toNat ∧ c.toNat ≤ 90)

/-- Regex word character `\w` = `[A-Za-z0-9_]`. -/
def isWordChar (c : Char) : Bool :=
  isLowerAlpha c || isUpperAlpha c || isDigitChar c || c = '_'

/-- ASCII letter (the class `[A-Z]` under the `i` flag). -/
def alphaChar (c : Char) : Bool :=
  isLowerAlpha c || isUpperAlpha c

/-- The email local-part class `[A-Z0-9._%+-]` under the `i` flag. -/
def localChar (c : Char) : Bool :=
  alphaChar c || isDigitChar c || c = '.' || c = '_' || c = '%' || c = '+' || c = '-'

/-- The email domain class `[A-Z0-9.-]` under the `i` flag. -/
def domChar (c : Char) : Bool :=
  alphaChar c || isDigitChar c || c = '.' || c = '-'

/-- Case-insensitively strip a (lowercase) literal pattern off the front of
a text, returning the rest. -/
def dropLitCI : List Char → List Char → Option (List Char)
  | [], l => some l
  | _ :: _, [] => none
  | p :: ps, c :: cs => if toLowerJS c = p then dropLitCI ps cs else none

/-- Does some alternative of `(https?:\/\/|www\.)` match here, followed by
at least one non-space character (`\S+`)? -/
def linkHere (l : List Char) : Bool :=
  [("http://").toList, ("https://").toList, ("www.").toList].any fun pat =>
    match dropLitCI pat l with
    | some (r :: _) => !jsSpace r
    | _ => false

/-- Scan for a match of `/\b(https?:\/\/|www\.)\S+/i`: at each position the
word boundary `\b` holds iff the wordness of the previous character (false
at the start) differs from the wordness of the current one. -/
def linkScan : Bool → List Char → Bool
  | _, [] => false
  | prevWord, c :: cs =>
    ((prevWord != isWordChar c) && linkHere (c :: cs)) || linkScan (isWordChar c) cs

/-- Is there a pair of adjacent characters whose `\w`-wordness differs?
(Within a run of local-part characters such a pair yields an interior
position where `\b` holds.) -/
def hasWordTransition : List Char → Bool
  | a :: b :: rest => (isWordChar a != isWordChar b) || hasWordTransition (b :: rest)
  | _ => false

/-- Given the reversed text before an `@`, can `\b[A-Z0-9._%+-]+` end right
before the `@`?  The candidate local parts are the nonempty suffixes of the
maximal local-character run ending at the `@`; a word boundary is available
at the start of the run (any character before the run is outside the class,
hence non-word, so the boundary holds iff the run starts with a word
character) or at any interior wordness transition. -/
def emailLeftOK (revPre : List Char) : Bool :=
  match (revPre.takeWhile localChar).reverse with
  | [] => false
  | c :: cs => isWordChar c || hasWordTransition (c :: cs)

/-- After at least two alphabetic characters: either the boundary `\b`
holds now (end of text or a non-word character), or consume one more
alphabetic character and retry — the backtracking choices of
`[A-Z]{2,}\b`. -/
def alphaBoundary : List Char → Bool
  | [] => true
  | c :: cs => !isWordChar c || (alphaChar c && alphaBoundary cs)

/-- `[A-Z]{2,}\b` starting here (under the `i` flag). -/
def alphaTail : List Char → Bool
  | a :: b :: rest => alphaChar a && alphaChar b && alphaBoundary rest
  | _ => false

/-- After one domain character: continue the run `[A-Z0-9.-]+`, stopping at
some literal `.` followed by `[A-Z]{2,}\b`. -/
def emailDotSearch : List Char → Bool
  | [] => false
  | c :: cs => (c = '.' && alphaTail cs) || (domChar c && emailDotSearch cs)

/-- `[A-Z0-9.-]+\.[A-Z]{2,}\b` starting right after the `@`. -/
def emailRightOK : List Char → Bool
  | [] => false
  | c :: cs => domChar c && emailDotSearch cs

/-- Scan for a match of `/\b[A-Z0-9._%+-]+@[A-Z0-9.-]+\.[A-Z]{2,}\b/i`,
carrying the reversed prefix for the left-context check at each `@`. -/
def emailScan : List Char → List Char → Bool
  | _, [] => false
  | revPre, c :: cs =>
    (c = '@' && emailLeftOK revPre && emailRightOK cs) || emailScan (c :: revPre) cs

/-- The class `[\w.]` of the handle regex. -/
def handleDotChar (c : Char) : Bool :=
  isWordChar c || c = '.'

/-- `[\w.]{2,}` starting here (two characters suffice). -/
def handleTail : List Char → Bool
  | a :: b :: _ => handleDotChar a && handleDotChar b
  | _ => false

/-- Scan for a match of `/(^|\s)@[\w.]{2,}/`, carrying the previous
character (`none` at the start of the text). -/
def handleScan : Option Char → List Char → Bool
  | _, [] => false
  | prev, c :: cs =>
    (c = '@' && (match prev with | none => true | some p => jsSpace p) && handleTail cs)
    || handleScan (some c) cs

/-- `containsLinkOrHandle` from the route: false for the empty text,
otherwise the link, email and handle regex tests in order. -/
def containsLinkOrHandle (text : List Char) : Bool :=
  if text = [] then false
  else linkScan false text || emailScan [] text || handleScan none text

/-- `uniqStrings` worker: trim each entry, drop empties and entries already
seen, keep first occurrences in order. -/
def uniqStringsAux (seen : List (List Char)) : List (List Char) → List (List Char)
  | [] => []
  | v :: rest =>
    let s := trimJS v
    if s = [] then uniqStringsAux seen rest
    else if s ∈ seen then uniqStringsAux seen rest
    else s :: uniqStringsAux (s :: seen) rest

/-- `uniqStrings` from the route. -/
def uniqStrings (arr : List (List Char)) : List (List Char) :=
  uniqStringsAux [] arr

/-- The route guard `!Number.isFinite(stars) || stars < 1 || stars > 5`.
A non-finite `Number` (`NaN`, `±Infinity`) is `none`; a finite value is
`some` of its exact rational value. -/
def starsRejected : Option ℚ → Bool
  | none => true
  | some s => decide (s < 1) || decide (s > 5)

/-- The external `leo-profanity` filter (declared in
`src/types/leo-profanity.d.ts`, implementation not part of the repo):
`check` reports profanity, `clean` soft-censors it. -/
structure ProfanityFilter where
  check : List Char → Bool
  clean : List Char → List Char

/-- Environment of the route: whether the Supabase URL/key are configured
(`getClient` throws otherwise) and the raw `SLUR_BLOCKLIST` value. -/
structure Env where
  supabaseConfigured : Bool
  slurRaw : List Char

/-- A `POST /api/reviews` request after JSON field extraction:
`driverId` stringified, `stars` as a JavaScript number, the raw comment,
the `tagIds` array stringified, and the salted SHA-256 hash of the caller
IP (`hashIp(getIp(req))` — the hash itself is computed by the external
`crypto` module, so the model carries its value). -/
structure ReviewReq where
  driverId : List Char
  stars : Option ℚ
  comment : List Char
  tagIds : List (List Char)
  ipHash : List Char

/-- A Postgres error as seen through the Supabase client: an error `code`
and a `message`. -/
structure PgError where
  code : List Char
  message : List Char
deriving DecidableEq, Repr

/-- A row of the `reviews` table as returned by the insert
(`id,driver_id,stars,comment,created_at`; the timestamp is
database-assigned and irrelevant here). -/
structure ReviewRow where
  id : List Char
  driver_id : List Char
  stars : Option ℚ
  comment : Option (List Char)
deriving DecidableEq, Repr

/-- Database failures injected into one run of the handler, plus the id the
database assigns to a successfully inserted review.  `rlInsertFault` is a
failure of the `review_rate_limits` insert *other than* the unique-key
violation (which is determined by the table state itself). -/
structure DbFaults where
  rlInsertFault : Option PgError
  reviewInsertFault : Option (List Char)
  tagsInsertFault : Option (List Char)
  newReviewId : List Char

/-- The tables the handler writes: `review_rate_limits` rows as
`(driver_id, ip_hash)` pairs, `reviews` rows, and `review_tags` rows as
`(review_id, tag_id)` pairs. -/
structure DbState where
  rateLimits : List (List Char × List Char)
  reviews : List ReviewRow
  reviewTags : List (List Char × List Char)
deriving DecidableEq, Repr

/-- Body of a JSON response of the handler: success with the inserted
review, or an `{ error }` object. -/
inductive RespBody where
  | okBody (review : ReviewRow)
  | errBody (msg : List Char)
deriving DecidableEq, Repr

/-- An HTTP response of the handler. -/
structure Resp where
  status : Nat
  body : RespBody
deriving DecidableEq, Repr

/-- Postgres unique-violation error code checked by the route. -/
def dupCode : List Char := ("23505").toList

/-- Modelled from the spec: the message of the database unique-violation
error raised by the unique constraint on `review_rate_limits` (its exact
text is produced by Postgres and never inspected beyond the code). -/
def dupKeyMsg : List Char :=
  "duplicate key value violates unique constraint".toList

/-- Error message of `getClient` when the Supabase env vars are missing. -/
def missingEnvMsg : List Char := "Missing Supabase env vars".toList

/-- 400 message for a missing driver id. -/
def missingDriverMsg : List Char := "Missing driverId.".toList

/-- 400 message for an out-of-range star rating. -/
def starsMsg : List Char := "Stars must be 1–5.".toList

/-- 400 message for blocklisted language. -/
def slurMsg : List Char := "Your comment contains prohibited language.".toList

/-- 400 message for links / contact attempts. -/
def linkMsg : List Char :=
  "Please don’t include links, emails, or social handles.".toList

/-- 429 message for the duplicate-review gate. -/
def alreadyMsg : List Char :=
  "You already reviewed this driver from this network.".toList

/-- `const commentNorm = clampComment(normalize(commentRaw))` of the
handler. -/
def commentNormOf (req : ReviewReq) : List Char :=
  clampComment (normalizeReviewText req.comment)

/-- `const safeComment = commentNorm && leoProfanity.check(commentNorm) ?
leoProfanity.clean(commentNorm) : commentNorm` of the handler. -/
def safeCommentOf (pf : ProfanityFilter) (req : ReviewReq) : List Char :=
  if commentNormOf req ≠ [] ∧ pf.check (commentNormOf req) = true then
    pf.clean (commentNormOf req)
  else commentNormOf req

/-- `const finalComment = safeComment ? safeComment : null` of the
handler. -/
def finalCommentOf (pf : ProfanityFilter) (req : ReviewReq) : Option (List Char) :=
  if safeCommentOf pf req ≠ [] then some (safeCommentOf pf req) else none

/-- The `POST` handler of `src/app/api/reviews/route.ts` (lines 255–346),
as a function of the environment, the external profanity filter, the
injected database faults and the current database state.  Modelled from the
spec where the database acts: the insert into the unique-constrained
`review_rate_limits` table fails with code `23505` exactly when the
`(driver_id, ip_hash)` pair is already present.  Returns the HTTP response
and the database state after the request. -/
def POSTreviews (env : Env) (pf : ProfanityFilter) (faults : DbFaults)
    (st : DbState) (req : ReviewReq) : Resp × DbState :=
  if env.supabaseConfigured = false then (⟨500, .errBody missingEnvMsg⟩, st)
  else
    let driverId := trimJS req.driverId
    if driverId = [] then (⟨400, .errBody missingDriverMsg⟩, st)
    else if starsRejected req.stars then (⟨400, .errBody starsMsg⟩, st)
    else
      if commentNormOf req ≠ [] ∧
          containsSlur (slurBlocklist env.slurRaw) (commentNormOf req) = true then
        (⟨400, .errBody slurMsg⟩, st)
      else if commentNormOf req ≠ [] ∧ containsLinkOrHandle (commentNormOf req) = true then
        (⟨400, .errBody linkMsg⟩, st)
      else
        let pair := (driverId, req.ipHash)
        let rlErr : Option PgError :=
          if pair ∈ st.rateLimits then some ⟨dupCode, dupKeyMsg⟩
          else faults.rlInsertFault
        match rlErr with
        | some e =>
          if e.code = dupCode then (⟨429, .errBody alreadyMsg⟩, st)
          else (⟨500, .errBody e.message⟩, st)
        | none =>
          let st1 : DbState := { st with rateLimits := pair :: st.rateLimits }
          match faults.reviewInsertFault with
          | some msg => (⟨500, .errBody msg⟩, st1)
          | none =>
            let row : ReviewRow :=
              ⟨faults.newReviewId, driverId, req.stars, finalCommentOf pf req⟩
            let st2 : DbState := { st1 with reviews := st1.reviews ++ [row] }
            let tagIds := uniqStrings req.tagIds
            if tagIds = [] then (⟨200, .okBody row⟩, st2)
            else
              match faults.tagsInsertFault with
              | some _ => (⟨200, .okBody row⟩, st2)
              | none =>
                let st3 : DbState :=
                  { st2 with reviewTags := st2.reviewTags ++ tagIds.map (fun t => (row.id, t)) }
                (⟨200, .okBody row⟩, st3)

/-- Sample configured environment with blocklist `qqq`, for concrete
checks. -/
def envW : Env := ⟨true, ("qqq").toList⟩

/-- Sample profanity filter that reports no profanity, for concrete
checks. -/
def pfW : ProfanityFilter := ⟨fun _ => false, fun s => s⟩

/-- Sample healthy fault pattern (no database failures, assigned review id
`r1`), for concrete checks. -/
def faultsW : DbFaults := ⟨none, none, none, ("r1").toList⟩

/-- Sample empty database, for concrete checks. -/
def stW : DbState := ⟨[], [], []⟩

/-- Sample valid review request without tags, for concrete checks. -/
def reqW : ReviewReq :=
  ⟨("d1").toList, some 5, ("great driver").toList, [], ("h1").toList⟩

/-- Sample valid review request with one tag, for concrete checks. -/
def reqTagsW : ReviewReq :=
  ⟨("d1").toList, some 5, ("great driver").toList, [("t1").toList], ("h1").toList⟩

/-! ## Helper lemmas -/

theorem dropWhile_eq_self_of_not {p : Char → Bool} {l : List Char}
    (h : ∀ c ∈ l, p c = false) : l.dropWhile p = l := by
  cases l with
  | nil => rfl
  | cons c cs =>
    rw [List.dropWhile_cons, if_neg]
    simp [h c (List.mem_cons_self c cs)]

theorem trimJS_eq_self {l : List Char} (h : ∀ c ∈ l, jsSpace c = false) :
    trimJS l = l := by
  unfold trimJS
  rw [dropWhile_eq_self_of_not h, dropWhile_eq_self_of_not
    (fun c hc => h c (List.mem_reverse.mp hc)), List.reverse_reverse]

theorem map_eq_self_of {f : Char → Char} {l : List Char}
    (h : ∀ c ∈ l, f c = c) : l.map f = l := by
  induction l with
  | nil => rfl
  | cons c cs ih =>
    simp only [List.map_cons, h c (List.mem_cons_self c cs), List.cons.injEq, true_and]
    exact ih (fun x hx => h x (List.mem_cons_of_mem c hx))

theorem collapseAux_eq_self {p : Char → Bool} {rep : Char} :
    ∀ (b : Bool) (l : List Char), (∀ c ∈ l, p c = false) →
      collapseAux p rep b l = l := by
  intro b l
  induction l generalizing b with
  | nil => intro _; rfl
  | cons c cs ih =>
    intro h
    simp only [collapseAux]
    rw [if_neg (by simp [h c (List.mem_cons_self c cs)])]
    rw [ih false (fun x hx => h x (List.mem_cons_of_mem c hx))]

/-- Characters of a `collapseAux` output: the replacement character, or an
input character outside the collapsed class. -/
theorem mem_collapseAux {p : Char → Bool} {rep : Char} :
    ∀ {b : Bool} {l : List Char} {c : Char}, c ∈ collapseAux p rep b l →
      c = rep ∨ (c ∈ l ∧ p c = false) := by
  intro b l
  induction l generalizing b with
  | nil => intro c hc; simp [collapseAux] at hc
  | cons x xs ih =>
    intro c hc
    simp only [collapseAux] at hc
    by_cases hx : p x
    · rw [if_pos hx] at hc
      by_cases hb : b
      · subst hb
        rcases ih hc with h | ⟨hm, hp⟩
        · exact Or.inl h
        · exact Or.inr ⟨List.mem_cons_of_mem x hm, hp⟩
      · simp only [hb] at hc
        rw [if_neg (by simp)] at hc
        rcases List.mem_cons.mp hc with h | h
        · exact Or.inl h
        · rcases ih h with h' | ⟨hm, hp⟩
          · exact Or.inl h'
          · exact Or.inr ⟨List.mem_cons_of_mem x hm, hp⟩
    · rw [if_neg hx] at hc
      rcases List.mem_cons.mp hc with h | h
      · exact Or.inr ⟨h ▸ List.mem_cons_self x xs, h ▸ (by simp [hx])⟩
      · rcases ih h with h' | ⟨hm, hp⟩
        · exact Or.inl h'
        · exact Or.inr ⟨List.mem_cons_of_mem x hm, hp⟩

/-- The first character a true-state dash collapse emits is never a dash. -/
theorem collapseAux_true_head {l : List Char} {x : Char}
    (h : (collapseAux isDash '-' true l).head? = some x) : x ≠ '-' := by
  induction l with
  | nil => simp [collapseAux] at h
  | cons c cs ih =>
    by_cases hc : isDash c = true
    · simp only [collapseAux, hc, if_true] at h
      exact ih h
    · simp only [collapseAux, hc, Bool.false_eq_true, if_false, List.head?_cons,
        Option.some.injEq] at h
      subst h
      simpa [isDash] using hc

/-- A dash collapse never emits two adjacent dashes. -/
theorem collapseAux_dash_chain' :
    ∀ (b : Bool) (l : List Char),
      List.Chain' (fun x y => ¬(x = '-' ∧ y = '-')) (collapseAux isDash '-' b l) := by
  intro b l
  induction l generalizing b with
  | nil => simp [collapseAux]
  | cons c cs ih =>
    simp only [collapseAux]
    by_cases hc : isDash c
    · rw [if_pos hc]
      by_cases hb : b
      · rw [if_pos hb]; exact ih true
      · simp only [hb]
        rw [if_neg (by simp)]
        rw [List.chain'_cons']
        exact ⟨fun y hy h => (collapseAux_true_head hy) h.2, ih true⟩
    · rw [if_neg hc]
      rw [List.chain'_cons']
      refine ⟨fun y hy h => ?_, ih false⟩
      exact absurd h.1 (by simpa [isDash] using hc)

/-- A list with no adjacent dashes is a fixpoint of the dash collapse. -/
theorem collapseAux_dash_eq_self {l : List Char}
    (h : List.Chain' (fun x y => ¬(x = '-' ∧ y = '-')) l) :
    collapseAux isDash '-' false l = l ∧
      (l.head? ≠ some '-' → collapseAux isDash '-' true l = l) := by
  induction l with
  | nil => exact ⟨rfl, fun _ => rfl⟩
  | cons c cs ih =>
    have hcs : List.Chain' (fun x y => ¬(x = '-' ∧ y = '-')) cs := h.tail
    have hrel : ∀ y ∈ cs.head?, ¬(c = '-' ∧ y = '-') := (List.chain'_cons'.mp h).1
    rcases ih hcs with ⟨ih1, ih2⟩
    by_cases hc : c = '-'
    · subst hc
      have hhd : cs.head? ≠ some '-' := by
        intro hh
        cases hhead : cs.head? with
        | none => rw [hhead] at hh; cases hh
        | some y =>
          rw [hhead] at hh
          exact hrel y (by rw [hhead]; rfl) ⟨rfl, by injection hh⟩
      constructor
      · simp only [collapseAux, isDash, decide_True, if_true, Bool.false_eq_true, if_false]
        rw [ih2 hhd]
      · intro hcontra
        exact absurd (rfl : (('-' :: cs).head? : Option Char) = some '-') hcontra
    · have hnd : isDash c = false := by simp [isDash, hc]
      constructor
      · simp only [collapseAux, hnd, Bool.false_eq_true, if_false]
        rw [ih1]
      · intro _
        simp only [collapseAux, hnd, Bool.false_eq_true, if_false]
        rw [ih1]

theorem lower_alnum_facts {c : Char} (h : isLowerAlnum c = true) :
    jsSpace c = false ∧ toLowerJS c = c ∧ uscoreOrSpace c = false ∧ c ≠ '-' := by
  have hn : (97 ≤ c.toNat ∧ c.toNat ≤ 122) ∨ (48 ≤ c.toNat ∧ c.toNat ≤ 57) := by
    simpa [isLowerAlnum, isLowerAlpha, isDigitChar] using h
  have hsp : jsSpace c = false := by
    simp only [jsSpace, decide_eq_false_iff_not]
    omega
  refine ⟨hsp, ?_, ?_, ?_⟩
  · unfold toLowerJS
    rw [if_neg]
    omega
  · simp only [uscoreOrSpace, Bool.or_eq_false_iff, hsp, and_true,
      decide_eq_false_iff_not]
    intro hch
    subst hch
    have : ('_' : Char).toNat = 95 := rfl
    omega
  · intro hch
    subst hch
    have : ('-' : Char).toNat = 45 := rfl
    omega

theorem dropWhile_head_false {p : Char → Bool} :
    ∀ {l : List Char} {c : Char} {cs : List Char},
      l.dropWhile p = c :: cs → p c = false := by
  intro l
  induction l with
  | nil => intro c cs h; cases h
  | cons x xs ih =>
    intro c cs h
    rw [List.dropWhile_cons] at h
    by_cases hx : p x = true
    · rw [if_pos hx] at h
      exact ih h
    · rw [if_neg hx] at h
      injection h with h1 _
      subst h1
      simpa using hx

/-- Structure extracted from a successful `HANDLE_RE` test: the string is a
1–4 character lower-alphanumeric part, a dash, and a 2–24 character
lower-alphabetic part. -/
theorem handleReTest_structure {l : List Char} (h : handleReTest l = true) :
    ∃ a b : List Char, l = a ++ '-' :: b ∧ 1 ≤ a.length ∧ a.length ≤ 4 ∧
      (∀ c ∈ a, isLowerAlnum c = true) ∧ 2 ≤ b.length ∧ b.length ≤ 24 ∧
      (∀ c ∈ b, isLowerAlpha c = true) := by
  unfold handleReTest at h
  cases hd : l.dropWhile (fun c => decide (c ≠ '-')) with
  | nil => rw [hd] at h; cases h
  | cons r0 b =>
    rw [hd] at h
    have hr0 : r0 = '-' := by
      have := dropWhile_head_false (p := fun c => decide (c ≠ '-')) hd
      simpa using this
    subst hr0
    simp only [Bool.and_eq_true, decide_eq_true_eq, List.all_eq_true] at h
    refine ⟨l.takeWhile (fun c => decide (c ≠ '-')), b, ?_, h.1.1.1.1.1, h.1.1.1.1.2,
      fun c hc => h.1.1.1.2 c hc, h.1.1.2, h.1.2, fun c hc => h.2 c hc⟩
    rw [← hd, List.takeWhile_append_dropWhile]

/-- A collapse pass only drops or replaces characters of the collapsed
class and only inserts the replacement character: filtering by any
predicate that rejects both leaves the list unchanged. -/
theorem filter_collapseAux {p q : Char → Bool} {rep : Char}
    (hrep : q rep = false) (hpq : ∀ c, p c = true → q c = false) :
    ∀ (b : Bool) (l : List Char),
      (collapseAux p rep b l).filter q = l.filter q := by
  intro b l
  induction l generalizing b with
  | nil => rfl
  | cons c cs ih =>
    by_cases hc : p c = true
    · have hqc : q c = false := hpq c hc
      cases b with
      | true =>
        simp only [collapseAux, hc, if_true, List.filter_cons, hqc,
          Bool.false_eq_true, if_false]
        exact ih true
      | false =>
        simp only [collapseAux, hc, if_true, Bool.false_eq_true, if_false,
          List.filter_cons, hrep, hqc]
        exact ih true
    · have hcf : p c = false := by simpa using hc
      simp only [collapseAux, hcf, Bool.false_eq_true, if_false, List.filter_cons]
      cases hqc : q c
      · simp only [Bool.false_eq_true, if_false]
        exact ih false
      · simp only [if_true]
        rw [ih false]

/-- A list of non-dash characters has no adjacent dashes. -/
theorem chain'_nodash {l : List Char} (h : ∀ c ∈ l, c ≠ '-') :
    List.Chain' (fun x y => ¬(x = '-' ∧ y = '-')) l := by
  induction l with
  | nil => simp
  | cons c cs ih =>
    rw [List.chain'_cons']
    refine ⟨fun y _ hy => (h c (List.mem_cons_self c cs)) hy.1, ?_⟩
    exact ih (fun x hx => h x (List.mem_cons_of_mem c hx))

/-! ## Claim theorems -/

/-- C4: handle normalization is idempotent — for every string that already
matches the canonical handle pattern `^[a-z0-9]{1,4}-[a-z]{2,24}$`,
`normalizeQuery` returns it unchanged. -/
theorem C4_normalizeQuery_idempotent_on_handles {l : List Char}
    (hl : handleReTest l = true) : normalizeQuery l = l := by
  obtain ⟨a, b, rfl, _, _, haC, _, _, hbC⟩ := handleReTest_structure hl
  have hfacts : ∀ c ∈ a ++ '-' :: b,
      jsSpace c = false ∧ toLowerJS c = c ∧ uscoreOrSpace c = false := by
    intro c hc
    rcases List.mem_append.mp hc with hca | hcb
    · obtain ⟨h1, h2, h3, _⟩ := lower_alnum_facts (haC c hca)
      exact ⟨h1, h2, h3⟩
    · rcases List.mem_cons.mp hcb with rfl | hcb
      · exact ⟨by decide, by decide, by decide⟩
      · have halnum : isLowerAlnum c = true := by
          simp [isLowerAlnum, hbC c hcb]
        obtain ⟨h1, h2, h3, _⟩ := lower_alnum_facts halnum
        exact ⟨h1, h2, h3⟩
  have hnodash_a : ∀ c ∈ a, c ≠ '-' :=
    fun c hc => (lower_alnum_facts (haC c hc)).2.2.2
  have hnodash_b : ∀ c ∈ b, c ≠ '-' := by
    intro c hc hcd
    have hca := hbC c hc
    subst hcd
    simp [isLowerAlpha] at hca
  have hchain : List.Chain' (fun x y => ¬(x = '-' ∧ y = '-')) (a ++ '-' :: b) := by
    rw [List.chain'_append]
    refine ⟨chain'_nodash hnodash_a, ?_, ?_⟩
    · rw [List.chain'_cons']
      exact ⟨fun y hy hconj => hnodash_b y (List.mem_of_mem_head? hy) hconj.2,
        chain'_nodash hnodash_b⟩
    · intro x hx y _ hconj
      exact hnodash_a x (List.mem_of_mem_getLast? hx) hconj.1
  unfold normalizeQuery collapse
  rw [trimJS_eq_self (fun c hc => (hfacts c hc).1),
      map_eq_self_of (fun c hc => (hfacts c hc).2.1),
      collapseAux_eq_self false _ (fun c hc => (hfacts c hc).2.2),
      (collapseAux_dash_eq_self hchain).1]

/-- Witness for C4 at the concrete canonical handle `8841-mike`. -/
theorem C4_witness :
    handleReTest (("8841-mike").toList) = true ∧
      normalizeQuery (("8841-mike").toList) = ("8841-mike").toList :=
  ⟨by decide, C4_normalizeQuery_idempotent_on_handles (by decide)⟩

/-- Under `toLowerJS` no character stays (or becomes) an uppercase ASCII
letter. -/
theorem toLowerJS_not_upper (d : Char) : isUpperAlpha (toLowerJS d) = false := by
  unfold toLowerJS
  by_cases hd : 65 ≤ d.toNat ∧ d.toNat ≤ 90
  · rw [if_pos hd]
    have hofn : ∀ n : Nat, 65 ≤ n → n ≤ 90 → (Char.ofNat (n + 32)).toNat = n + 32 := by
      intro n h1 h2
      have hv : Nat.isValidChar (n + 32) := by left; omega
      simp [Char.ofNat, hv, Char.toNat, Char.ofNatAux, UInt32.toNat, BitVec.toNat_ofNatLt]
    have hn := hofn d.toNat hd.1 hd.2
    simp only [isUpperAlpha, decide_eq_false_iff_not]
    omega
  · rw [if_neg hd]
    simp only [isUpperAlpha, decide_eq_false_iff_not]
    omega

/-- C5 (counterexample): the claim that `normalizeQuery` output consists
only of lowercase letters, digits and dashes fails at the query `"!"`,
which normalizes to itself. -/
theorem C5_counterexample :
    ¬ ((normalizeQuery (("!").toList)).all (fun c => isLowerAlnum c || isDash c) = true) := by
  decide

/-- C5 (amended): `normalizeQuery` trims, lowercases and collapses runs of
whitespace/underscores (and of dashes) into single dashes, but strips
nothing else: its output contains no underscore or whitespace character, no
uppercase ASCII letter, and no two adjacent dashes, and every other
character of the trimmed, lowercased input is preserved, in order — the
characters of the output that are not collapse-class characters or dashes
are exactly those of the trimmed, lowercased input. -/
theorem C5_normalizeQuery_charset (raw : List Char) :
    (∀ c ∈ normalizeQuery raw, uscoreOrSpace c = false ∧ isUpperAlpha c = false) ∧
      List.Chain' (fun x y => ¬(x = '-' ∧ y = '-')) (normalizeQuery raw) ∧
      (normalizeQuery raw).filter plainChar =
        ((trimJS raw).map toLowerJS).filter plainChar := by
  refine ⟨?_, ?_, ?_⟩
  · intro c hc
    unfold normalizeQuery collapse at hc
    rcases mem_collapseAux hc with rfl | ⟨hc1, _⟩
    · exact ⟨by decide, by decide⟩
    · rcases mem_collapseAux hc1 with rfl | ⟨hc2, hp⟩
      · exact ⟨by decide, by decide⟩
      · refine ⟨hp, ?_⟩
        obtain ⟨d, _, rfl⟩ := List.mem_map.mp hc2
        exact toLowerJS_not_upper d
  · unfold normalizeQuery collapse
    exact collapseAux_dash_chain' false _
  · unfold normalizeQuery collapse
    rw [filter_collapseAux (by decide) (fun c hc => by simp [plainChar, hc]),
        filter_collapseAux (by decide) (fun c hc => by simp [plainChar, hc])]

/-- Witness for C5 (amended) at the queries `"a_B"` (which normalizes to
`"a-b"`, checked at its first character) and `"a_B!"` (whose non-collapsed
characters — including the `!` a stripping normalizer would drop — are
preserved). -/
theorem C5_witness :
    (uscoreOrSpace 'a' = false ∧ isUpperAlpha 'a' = false) ∧
      (normalizeQuery (("a_B!").toList)).filter plainChar =
        ((trimJS (("a_B!").toList)).map toLowerJS).filter plainChar :=
  ⟨(C5_normalizeQuery_charset (("a_B").toList)).1 'a' (by decide),
   (C5_normalizeQuery_charset (("a_B!").toList)).2.2⟩

/-- C1: a query normalizing to a plate-only form (`^\d{4}$`) is rejected
with the plate-only guidance message and no suggestion search when no
disambiguating field (state / car make) is present; with a disambiguator
present, the page instead runs the prefix `ILIKE` suggestion search with
pattern `escape(plate ++ "-") ++ "%"` and limit 25.  This holds for every
exact-lookup database response `db` (a plate-only query never matches
`HANDLE_RE`, so the exact lookup is never consulted). -/
theorem C1_plate_only_gating (db : List Char → Option DriverRow) (sp : SearchParams)
    (hlen : (normalizeQuery (trimJS sp.q)).length = 4)
    (hdig : ∀ c ∈ normalizeQuery (trimJS sp.q), isDigitChar c = true) :
    (hasAnyDisambiguator (searchInitialState sp) (searchInitialCarMake sp) = false →
      searchPageDecision db sp = .guidance plateOnlyHelper true) ∧
    (hasAnyDisambiguator (searchInitialState sp) (searchInitialCarMake sp) = true →
      searchPageDecision db sp =
        .suggest (safePrefixIlike (normalizeQuery (trimJS sp.q) ++ ['-'])) 25
          (if searchInitialState sp ≠ [] then some (searchInitialState sp) else none)
          (if searchInitialCarMake sp ≠ [] then
            some (buildContainsIlike (searchInitialCarMake sp)) else none)
          true) := by
  set q := normalizeQuery (trimJS sp.q) with hqdef
  have hne : q ≠ [] := by
    intro h0
    rw [h0] at hlen
    simp at hlen
  have hdw : q.dropWhile (fun c => decide (c ≠ '-')) = [] := by
    rw [List.dropWhile_eq_nil_iff]
    intro x hx
    have hd := hdig x hx
    simp only [decide_eq_true_eq]
    intro hxd
    subst hxd
    simp [isDigitChar] at hd
  have hhandle : handleReTest q = false := by
    unfold handleReTest
    rw [hdw]
  have htake : q.take 4 = q := List.take_of_length_le (by rw [hlen])
  have hdrop : q.drop 4 = [] := by
    apply List.drop_eq_nil_of_le
    rw [hlen]
  have hparse : parsePlateLeading q = some ⟨q, []⟩ := by
    unfold parsePlateLeading
    rw [htake, hdrop, if_pos ⟨hlen, List.all_eq_true.mpr (fun c hc => hdig c hc)⟩]
    rfl
  constructor <;> intro hdis <;>
    simp only [searchPageDecision, ← hqdef, if_neg hne, hhandle, Bool.false_eq_true,
      if_false, hparse, hdis] <;> simp

/-- Witness for C1: the query `2222` with no filters is rejected with the
plate-only guidance; with `state=CA` it runs the prefix search. -/
theorem C1_witness :
    searchPageDecision (fun _ => none) ⟨("2222").toList, [], []⟩ =
        .guidance plateOnlyHelper true ∧
      searchPageDecision (fun _ => none) ⟨("2222").toList, ("CA").toList, []⟩ =
        .suggest (safePrefixIlike (("2222-").toList)) 25 (some (("CA").toList)) none true :=
  ⟨(C1_plate_only_gating (fun _ => none) ⟨("2222").toList, [], []⟩
      (by decide) (by decide)).1 (by decide),
   (C1_plate_only_gating (fun _ => none) ⟨("2222").toList, ("CA").toList, []⟩
      (by decide) (by decide)).2 (by decide)⟩

/-- C9: a plate+partial-name query (plate-leading with a nonempty name
part) that does not hit the exact-handle lookup runs the prefix `ILIKE`
suggestion search over `driver_handle` with pattern
`escape(plate ++ "-" ++ namePart) ++ "%"` and query limit 25, and whatever
rows come back, at most 20 suggestions are rendered. -/
theorem C9_plate_partial_prefix_search (db : List Char → Option DriverRow)
    (sp : SearchParams) (pp : PlateParse)
    (hparse : parsePlateLeading (normalizeQuery (trimJS sp.q)) = some pp)
    (hnp : pp.namePart ≠ [])
    (hdb : handleReTest (normalizeQuery (trimJS sp.q)) = true →
      db (normalizeQuery (trimJS sp.q)) = none) :
    searchPageDecision db sp =
      .suggest (safePrefixIlike (pp.plate ++ '-' :: pp.namePart)) 25
        (if searchInitialState sp ≠ [] then some (searchInitialState sp) else none)
        (if searchInitialCarMake sp ≠ [] then
          some (buildContainsIlike (searchInitialCarMake sp)) else none)
        true ∧
      ∀ results : List DriverRow, (renderedSuggestions results).length ≤ 20 := by
  set q := normalizeQuery (trimJS sp.q) with hqdef
  have hstruct : ∃ b, q.drop 4 = '-' :: b ∧ pp.plate = q.take 4 ∧
      pp.namePart = trimJS b := by
    unfold parsePlateLeading at hparse
    by_cases hcond : ((q.take 4).length = 4 ∧ (q.take 4).all isDigitChar = true)
    · rw [if_pos hcond] at hparse
      split at hparse
      · injection hparse with hpp
        rw [← hpp] at hnp
        exact absurd rfl hnp
      · rename_i b heq
        split at hparse
        · injection hparse with hpp
          exact ⟨b, heq, by rw [← hpp], by rw [← hpp]⟩
        · cases hparse
      · cases hparse
    · rw [if_neg hcond] at hparse
      cases hparse
  obtain ⟨b, hdropeq, hplate, _⟩ := hstruct
  have hne : q ≠ [] := by
    intro h0
    rw [h0] at hdropeq
    simp at hdropeq
  have hqne : q ≠ pp.plate := by
    intro hqe
    have h1 : q.length = (q.take 4).length + (q.drop 4).length := by
      rw [← List.length_append, List.take_append_drop]
    have h2 : q.length = (q.take 4).length := by
      conv_lhs => rw [hqe, hplate]
    rw [hdropeq] at h1
    simp only [List.length_cons] at h1
    omega
  have hdriver : (if handleReTest q then db q else none) = none := by
    by_cases hh : handleReTest q = true
    · rw [if_pos hh]
      exact hdb hh
    · rw [if_neg hh]
  refine ⟨?_, ?_⟩
  · simp only [searchPageDecision, ← hqdef, if_neg hne, hdriver, hparse]
    rw [if_neg (fun hcon => hqne hcon.1), if_pos hnp]
  · intro results
    simp [renderedSuggestions]

/-- Witness for C9 at the query `2222 t` (normalizing to `2222-t`). -/
theorem C9_witness :
    searchPageDecision (fun _ => none) ⟨("2222 t").toList, [], []⟩ =
        .suggest (safePrefixIlike (("2222-t").toList)) 25 none none true ∧
      (renderedSuggestions []).length ≤ 20 :=
  ⟨(C9_plate_partial_prefix_search (fun _ => none) ⟨("2222 t").toList, [], []⟩
      ⟨("2222").toList, ("t").toList⟩ (by decide) (by decide) (fun _ => rfl)).1,
   (C9_plate_partial_prefix_search (fun _ => none) ⟨("2222 t").toList, [], []⟩
      ⟨("2222").toList, ("t").toList⟩ (by decide) (by decide) (fun _ => rfl)).2 []⟩

theorem lexLike_esc (d : Char) (ds : List Char) :
    lexLike ('\\' :: d :: ds) = (lexLike ds).map (fun ts => .lit d :: ts) := rfl

theorem lexLike_other {c : Char} (h : c ≠ '\\') (cs : List Char) :
    lexLike (c :: cs) =
      if c = '%' then (lexLike cs).map (fun ts => .anyStr :: ts)
      else if c = '_' then (lexLike cs).map (fun ts => .anyChar :: ts)
      else (lexLike cs).map (fun ts => .lit c :: ts) := by
  unfold lexLike
  split
  · rename_i heq
    simp at heq
  · rename_i heq
    simp only [List.cons.injEq] at heq
    exact absurd heq.1 h
  · rename_i d ds heq
    simp only [List.cons.injEq] at heq
    exact absurd heq.1 h
  · rename_i c2 cs2 heq
    injection heq with h1 h2
    subst h1
    subst h2
    simp only [← lexLike.eq_def]

/-- C10: the pattern handed to the suggestion `ILIKE` is exactly the
escaped query followed by one trailing `%`, and reading that pattern back
as a `LIKE` pattern yields every query character as a literal token
followed by the single any-string wildcard — no character of the query
acts as a metacharacter. -/
theorem C10_safePrefixIlike_literal (q : List Char) :
    safePrefixIlike q = escapeIlikeLiteral q ++ ['%'] ∧
      lexLike (safePrefixIlike q) = some (q.map LikeTok.lit ++ [LikeTok.anyStr]) := by
  refine ⟨rfl, ?_⟩
  unfold safePrefixIlike
  induction q with
  | nil => decide
  | cons c cs ih =>
    by_cases hc : c = '%' ∨ c = '_' ∨ c = '\\'
    · simp only [escapeIlikeLiteral, if_pos hc, List.cons_append, lexLike_esc, ih,
        Option.map_some', List.map_cons, List.cons_append]
    · push_neg at hc
      simp only [escapeIlikeLiteral, if_neg (by tauto : ¬(c = '%' ∨ c = '_' ∨ c = '\\')),
        List.cons_append, lexLike_other hc.2.2, if_neg hc.1, if_neg hc.2.1, ih,
        Option.map_some', List.map_cons]

theorem clampComment_length (t : List Char) :
    (clampComment t).length ≤ MAX_COMMENT_CHARS := by
  unfold clampComment
  by_cases h0 : t = []
  · rw [if_pos h0]
    simp [MAX_COMMENT_CHARS]
  · rw [if_neg h0]
    by_cases h1 : MAX_COMMENT_CHARS < t.length
    · rw [if_pos h1]
      simp [List.length_take]
    · rw [if_neg h1]
      omega

/-- Every success response of the handler carries exactly the inserted
review row: the database-assigned id, the trimmed driver id, the submitted
stars and the moderated comment. -/
theorem POSTreviews_ok_shape {env : Env} {pf : ProfanityFilter} {faults : DbFaults}
    {st : DbState} {req : ReviewReq} {r : ReviewRow}
    (hok : (POSTreviews env pf faults st req).1.body = .okBody r) :
    r = ⟨faults.newReviewId, trimJS req.driverId, req.stars, finalCommentOf pf req⟩ := by
  simp only [POSTreviews] at hok
  repeat' split at hok
  all_goals (try cases hok)
  all_goals rfl

theorem containsSlur_ne_nil {bl : List (List Char)} {t : List Char}
    (h : containsSlur bl t = true) : t ≠ [] := by
  intro h0
  subst h0
  simp [containsSlur] at h

/-- C7: whenever the `stars` value is rejected by the route guard
(non-finite, below 1 or above 5), the handler answers with a 400 validation
error and writes nothing, for every database state and fault pattern
(provided the Supabase environment is configured — otherwise `getClient`
throws first and the catch-all answers 500). -/
theorem C7_invalid_stars_rejected (env : Env) (pf : ProfanityFilter)
    (faults : DbFaults) (st : DbState) (req : ReviewReq)
    (henv : env.supabaseConfigured = true)
    (hstars : starsRejected req.stars = true) :
    (POSTreviews env pf faults st req).1.status = 400 ∧
      (∃ m, (POSTreviews env pf faults st req).1.body = .errBody m) ∧
      (POSTreviews env pf faults st req).2 = st := by
  simp only [POSTreviews, henv, Bool.true_eq_false, if_false]
  by_cases hdrv : trimJS req.driverId = []
  · rw [if_pos hdrv]
    exact ⟨rfl, ⟨missingDriverMsg, rfl⟩, rfl⟩
  · rw [if_neg hdrv, if_pos hstars]
    exact ⟨rfl, ⟨starsMsg, rfl⟩, rfl⟩

/-- Witness for C7 at `stars = 7`. -/
theorem C7_witness :
    (POSTreviews ⟨true, []⟩ ⟨fun _ => false, fun s => s⟩
        ⟨none, none, none, ("r1").toList⟩ ⟨[], [], []⟩
        ⟨("d1").toList, some 7, [], [], ("h1").toList⟩).1.status = 400 ∧
      (∃ m, (POSTreviews ⟨true, []⟩ ⟨fun _ => false, fun s => s⟩
        ⟨none, none, none, ("r1").toList⟩ ⟨[], [], []⟩
        ⟨("d1").toList, some 7, [], [], ("h1").toList⟩).1.body = .errBody m) ∧
      (POSTreviews ⟨true, []⟩ ⟨fun _ => false, fun s => s⟩
        ⟨none, none, none, ("r1").toList⟩ ⟨[], [], []⟩
        ⟨("d1").toList, some 7, [], [], ("h1").toList⟩).2 = ⟨[], [], []⟩ :=
  C7_invalid_stars_rejected ⟨true, []⟩ ⟨fun _ => false, fun s => s⟩
    ⟨none, none, none, ("r1").toList⟩ ⟨[], [], []⟩
    ⟨("d1").toList, some 7, [], [], ("h1").toList⟩ rfl (by decide)

/-- C2 (counterexample): a submitted comment that contains a blocklisted
term is not always rejected — when the term sits entirely beyond the
500-character truncation point, the handler accepts the submission and
persists the truncated review.  Here the blocklist is `qqq` and the
comment is 500 `a`s followed by `qqq`. -/
theorem C2_counterexample :
    containsSlur (slurBlocklist (("qqq").toList))
        (List.replicate 500 'a' ++ ("qqq").toList) = true ∧
      (POSTreviews ⟨true, ("qqq").toList⟩ ⟨fun _ => false, fun s => s⟩
          ⟨none, none, none, ("r1").toList⟩ ⟨[], [], []⟩
          ⟨("d1").toList, some 5, List.replicate 500 'a' ++ ("qqq").toList, [],
            ("h1").toList⟩).1 =
        ⟨200, .okBody ⟨("r1").toList, ("d1").toList, some 5,
          some (List.replicate 500 'a')⟩⟩ ∧
      (POSTreviews ⟨true, ("qqq").toList⟩ ⟨fun _ => false, fun s => s⟩
          ⟨none, none, none, ("r1").toList⟩ ⟨[], [], []⟩
          ⟨("d1").toList, some 5, List.replicate 500 'a' ++ ("qqq").toList, [],
            ("h1").toList⟩).2.reviews =
        [⟨("r1").toList, ("d1").toList, some 5, some (List.replicate 500 'a')⟩] := by
  set_option maxRecDepth 1000000 in
  refine ⟨by decide, by decide, by decide⟩

/-- C2 (amended): whenever the *normalized and 500-character-truncated*
comment contains a blocklisted term (in any casing, with any surrounding
whitespace), the handler rejects the submission — it returns an error
response and persists nothing. -/
theorem C2_slur_in_checked_comment_rejected (env : Env) (pf : ProfanityFilter)
    (faults : DbFaults) (st : DbState) (req : ReviewReq)
    (hs : containsSlur (slurBlocklist env.slurRaw) (commentNormOf req) = true) :
    (∃ m, (POSTreviews env pf faults st req).1.body = .errBody m) ∧
      (POSTreviews env pf faults st req).2 = st := by
  simp only [POSTreviews]
  by_cases h1 : env.supabaseConfigured = false
  · rw [if_pos h1]
    exact ⟨⟨missingEnvMsg, rfl⟩, rfl⟩
  · rw [if_neg h1]
    by_cases h2 : trimJS req.driverId = []
    · rw [if_pos h2]
      exact ⟨⟨missingDriverMsg, rfl⟩, rfl⟩
    · rw [if_neg h2]
      by_cases h3 : starsRejected req.stars = true
      · rw [if_pos h3]
        exact ⟨⟨starsMsg, rfl⟩, rfl⟩
      · rw [if_neg h3, if_pos ⟨containsSlur_ne_nil hs, hs⟩]
        exact ⟨⟨slurMsg, rfl⟩, rfl⟩

/-- Witness for C2 (amended): a short comment containing the blocklisted
term (here in mixed case with surrounding whitespace) is rejected. -/
theorem C2_amended_witness :
    (∃ m, (POSTreviews ⟨true, ("qqq").toList⟩ ⟨fun _ => false, fun s => s⟩
        ⟨none, none, none, ("r1").toList⟩ ⟨[], [], []⟩
        ⟨("d1").toList, some 5, ("  bad QqQ word ").toList, [],
          ("h1").toList⟩).1.body = .errBody m) ∧
      (POSTreviews ⟨true, ("qqq").toList⟩ ⟨fun _ => false, fun s => s⟩
        ⟨none, none, none, ("r1").toList⟩ ⟨[], [], []⟩
        ⟨("d1").toList, some 5, ("  bad QqQ word ").toList, [],
          ("h1").toList⟩).2 = ⟨[], [], []⟩ :=
  C2_slur_in_checked_comment_rejected ⟨true, ("qqq").toList⟩
    ⟨fun _ => false, fun s => s⟩ ⟨none, none, none, ("r1").toList⟩ ⟨[], [], []⟩
    ⟨("d1").toList, some 5, ("  bad QqQ word ").toList, [], ("h1").toList⟩
    (by decide)

/-- C8: for every accepted submission, the comment stored with the review
is at most `MAX_COMMENT_CHARS` characters long — the comment is normalized
and truncated *before* the soft censor and persistence.  The external
`leo-profanity` censor is modelled from the spec as replacing profane
substrings by placeholder characters, hence length-preserving
(hypothesis `hclean`). -/
theorem C8_stored_comment_at_most_500 (env : Env) (pf : ProfanityFilter)
    (faults : DbFaults) (st : DbState) (req : ReviewReq)
    (hclean : ∀ s : List Char, (pf.clean s).length = s.length)
    (r : ReviewRow) (hok : (POSTreviews env pf faults st req).1.body = .okBody r)
    (c : List Char) (hc : r.comment = some c) : c.length ≤ MAX_COMMENT_CHARS := by
  rw [POSTreviews_ok_shape hok] at hc
  have hc2 : finalCommentOf pf req = some c := hc
  unfold finalCommentOf at hc2
  split at hc2
  · injection hc2 with h
    subst h
    unfold safeCommentOf
    split
    · rw [hclean]
      exact clampComment_length _
    · exact clampComment_length _
  · cases hc2

/-- Witness for C8 at a successful two-character comment. -/
theorem C8_witness : (("ok").toList).length ≤ MAX_COMMENT_CHARS :=
  C8_stored_comment_at_most_500 ⟨true, []⟩ ⟨fun _ => false, fun s => s⟩
    ⟨none, none, none, ("r1").toList⟩ ⟨[], [], []⟩
    ⟨("d1").toList, some 4, ("ok").toList, [], ("h1").toList⟩
    (fun _ => rfl)
    ⟨("r1").toList, ("d1").toList, some 4, some (("ok").toList)⟩
    (by decide) (("ok").toList) (by decide)

/-- C3: the once-per-(driver, hashed IP) gate.  For a submission that
passes validation and moderation, with no injected database failures:
if the `(driver_id, ip_hash)` pair is not yet in the unique-constrained
`review_rate_limits` table the request succeeds (200, review inserted,
pair recorded); if the pair is already present, the insert raises the
unique-violation code `23505`, mapped to a 429 response, and no review is
inserted (the database is left unchanged). -/
theorem C3_rate_limit_gate (env : Env) (pf : ProfanityFilter) (faults : DbFaults)
    (st : DbState) (req : ReviewReq)
    (henv : env.supabaseConfigured = true)
    (hdrv : trimJS req.driverId ≠ [])
    (hstars : starsRejected req.stars = false)
    (hslur : containsSlur (slurBlocklist env.slurRaw) (commentNormOf req) = false)
    (hlink : containsLinkOrHandle (commentNormOf req) = false)
    (hrl : faults.rlInsertFault = none)
    (hrev : faults.reviewInsertFault = none) :
    ((trimJS req.driverId, req.ipHash) ∉ st.rateLimits →
      (POSTreviews env pf faults st req).1.status = 200 ∧
      (∃ r, (POSTreviews env pf faults st req).1.body = .okBody r) ∧
      (trimJS req.driverId, req.ipHash) ∈ (POSTreviews env pf faults st req).2.rateLimits ∧
      (∃ r, (POSTreviews env pf faults st req).2.reviews = st.reviews ++ [r])) ∧
    ((trimJS req.driverId, req.ipHash) ∈ st.rateLimits →
      (POSTreviews env pf faults st req).1 = ⟨429, .errBody alreadyMsg⟩ ∧
      (POSTreviews env pf faults st req).2 = st) := by
  have hslurg : ¬(commentNormOf req ≠ [] ∧
      containsSlur (slurBlocklist env.slurRaw) (commentNormOf req) = true) :=
    fun hcon => by simp [hslur] at hcon
  have hlinkg : ¬(commentNormOf req ≠ [] ∧
      containsLinkOrHandle (commentNormOf req) = true) :=
    fun hcon => by simp [hlink] at hcon
  constructor
  · intro hmem
    simp only [POSTreviews, henv, Bool.true_eq_false, if_false, if_neg hdrv, hstars,
      Bool.false_eq_true, if_neg hslurg, if_neg hlinkg, if_neg hmem, hrl, hrev]
    refine ⟨?_, ?_, ?_, ?_⟩ <;> (repeat' split) <;>
      first
        | rfl
        | exact ⟨_, rfl⟩
        | simp [List.mem_cons_self]
  · intro hmem
    simp only [POSTreviews, henv, Bool.true_eq_false, if_false, if_neg hdrv, hstars,
      Bool.false_eq_true, if_neg hslurg, if_neg hlinkg, if_pos hmem]
    exact ⟨rfl, rfl⟩

/-- Witness for C3: a first submission from `(d1, h1)` against the empty
database succeeds; resubmitting against the resulting database yields the
429 response and changes nothing. -/
theorem C3_witness :
    ((POSTreviews envW pfW faultsW stW reqW).1.status = 200 ∧
      (∃ r, (POSTreviews envW pfW faultsW stW reqW).1.body = .okBody r) ∧
      (trimJS reqW.driverId, reqW.ipHash) ∈
        (POSTreviews envW pfW faultsW stW reqW).2.rateLimits ∧
      (∃ r, (POSTreviews envW pfW faultsW stW reqW).2.reviews = stW.reviews ++ [r])) ∧
    ((POSTreviews envW pfW faultsW (POSTreviews envW pfW faultsW stW reqW).2 reqW).1 =
        ⟨429, .errBody alreadyMsg⟩ ∧
      (POSTreviews envW pfW faultsW (POSTreviews envW pfW faultsW stW reqW).2 reqW).2 =
        (POSTreviews envW pfW faultsW stW reqW).2) :=
  ⟨(C3_rate_limit_gate envW pfW faultsW stW reqW rfl (by decide) (by decide)
      (by decide) (by decide) rfl rfl).1 (by decide),
   (C3_rate_limit_gate envW pfW faultsW (POSTreviews envW pfW faultsW stW reqW).2 reqW
      rfl (by decide) (by decide) (by decide) (by decide) rfl rfl).2 (by decide)⟩

/-- Case split on the response of the handler: it is either a 200 success
carrying a review, or an error body with status 400, 429 or 500. -/
theorem POSTreviews_status_cases (env : Env) (pf : ProfanityFilter)
    (faults : DbFaults) (st : DbState) (req : ReviewReq) :
    ((POSTreviews env pf faults st req).1.status = 200 ∧
      ∃ r, (POSTreviews env pf faults st req).1.body = .okBody r) ∨
    (((POSTreviews env pf faults st req).1.status = 400 ∨
      (POSTreviews env pf faults st req).1.status = 429 ∨
      (POSTreviews env pf faults st req).1.status = 500) ∧
      ∃ m, (POSTreviews env pf faults st req).1.body = .errBody m) := by
  simp only [POSTreviews]
  repeat' split
  all_goals simp

/-- C6 (amended): every error response of the handler has status 400, 429
or 500 (400 for validation and moderation rejections, 429 for the
unique-violation rate-limit code `23505`, 500 for a missing configuration
or a failing rate-limit/review insert); a failing `review_tags` insert,
however, is only logged — the HTTP response is identical to the one of a
run whose tags insert succeeds (a 200 success), so no error is surfaced;
and for a request that reaches the persistence stage, a
non-unique-violation failure of the `review_rate_limits` insert and a
failure of the `reviews` insert each produce a 500 response carrying the
database failure message as the JSON error string. -/
theorem C6_error_statuses (env : Env) (pf : ProfanityFilter) (faults : DbFaults)
    (st : DbState) (req : ReviewReq) :
    (∀ m, (POSTreviews env pf faults st req).1.body = .errBody m →
      ((POSTreviews env pf faults st req).1.status = 400 ∨
       (POSTreviews env pf faults st req).1.status = 429 ∨
       (POSTreviews env pf faults st req).1.status = 500)) ∧
    (∀ e, (POSTreviews env pf
        ⟨faults.rlInsertFault, faults.reviewInsertFault, some e, faults.newReviewId⟩
        st req).1 =
      (POSTreviews env pf
        ⟨faults.rlInsertFault, faults.reviewInsertFault, none, faults.newReviewId⟩
        st req).1) ∧
    (∀ e, env.supabaseConfigured = true → trimJS req.driverId ≠ [] →
      starsRejected req.stars = false →
      containsSlur (slurBlocklist env.slurRaw) (commentNormOf req) = false →
      containsLinkOrHandle (commentNormOf req) = false →
      (trimJS req.driverId, req.ipHash) ∉ st.rateLimits →
      faults.rlInsertFault = some e → e.code ≠ dupCode →
      (POSTreviews env pf faults st req).1 = ⟨500, .errBody e.message⟩) ∧
    (∀ m, env.supabaseConfigured = true → trimJS req.driverId ≠ [] →
      starsRejected req.stars = false →
      containsSlur (slurBlocklist env.slurRaw) (commentNormOf req) = false →
      containsLinkOrHandle (commentNormOf req) = false →
      (trimJS req.driverId, req.ipHash) ∉ st.rateLimits →
      faults.rlInsertFault = none → faults.reviewInsertFault = some m →
      (POSTreviews env pf faults st req).1 = ⟨500, .errBody m⟩) := by
  refine ⟨?_, ?_, ?_, ?_⟩
  · intro m hm
    rcases POSTreviews_status_cases env pf faults st req with ⟨_, r, hr⟩ | ⟨hs, _⟩
    · rw [hm] at hr
      cases hr
    · exact hs
  · intro e
    simp only [POSTreviews]
    repeat' split
    all_goals rfl
  · intro e henv hdrv hstars hslur hlink hmem hrl hne
    have hslurg : ¬(commentNormOf req ≠ [] ∧
        containsSlur (slurBlocklist env.slurRaw) (commentNormOf req) = true) :=
      fun hcon => by simp [hslur] at hcon
    have hlinkg : ¬(commentNormOf req ≠ [] ∧
        containsLinkOrHandle (commentNormOf req) = true) :=
      fun hcon => by simp [hlink] at hcon
    simp only [POSTreviews, henv, Bool.true_eq_false, if_false, if_neg hdrv, hstars,
      Bool.false_eq_true, if_neg hslurg, if_neg hlinkg, if_neg hmem, hrl]
    rw [if_neg hne]
  · intro m henv hdrv hstars hslur hlink hmem hrl hrev
    have hslurg : ¬(commentNormOf req ≠ [] ∧
        containsSlur (slurBlocklist env.slurRaw) (commentNormOf req) = true) :=
      fun hcon => by simp [hslur] at hcon
    have hlinkg : ¬(commentNormOf req ≠ [] ∧
        containsLinkOrHandle (commentNormOf req) = true) :=
      fun hcon => by simp [hlink] at hcon
    simp only [POSTreviews, henv, Bool.true_eq_false, if_false, if_neg hdrv, hstars,
      Bool.false_eq_true, if_neg hslurg, if_neg hlinkg, if_neg hmem, hrl, hrev]

/-- Witness for C6: the error case checked on an invalid-stars request, the
tags-failure case on a valid tagged request, the failing rate-limit insert
(non-duplicate code `XX001`) and the failing review insert on a valid
request against the empty database. -/
theorem C6_witness :
    ((POSTreviews envW pfW faultsW stW
        ⟨("d1").toList, some 7, [], [], ("h1").toList⟩).1.status = 400 ∨
      (POSTreviews envW pfW faultsW stW
        ⟨("d1").toList, some 7, [], [], ("h1").toList⟩).1.status = 429 ∨
      (POSTreviews envW pfW faultsW stW
        ⟨("d1").toList, some 7, [], [], ("h1").toList⟩).1.status = 500) ∧
    ((POSTreviews envW pfW ⟨none, none, some (("boom").toList), ("r1").toList⟩
        stW reqTagsW).1 =
      (POSTreviews envW pfW ⟨none, none, none, ("r1").toList⟩ stW reqTagsW).1) ∧
    ((POSTreviews envW pfW
        ⟨some ⟨("XX001").toList, ("io fail").toList⟩, none, none, ("r1").toList⟩
        stW reqW).1 = ⟨500, .errBody (("io fail").toList)⟩) ∧
    ((POSTreviews envW pfW ⟨none, some (("rev fail").toList), none, ("r1").toList⟩
        stW reqW).1 = ⟨500, .errBody (("rev fail").toList)⟩) :=
  ⟨(C6_error_statuses envW pfW faultsW stW
      ⟨("d1").toList, some 7, [], [], ("h1").toList⟩).1 starsMsg (by decide),
   (C6_error_statuses envW pfW ⟨none, none, none, ("r1").toList⟩ stW reqTagsW).2.1
      (("boom").toList),
   (C6_error_statuses envW pfW
      ⟨some ⟨("XX001").toList, ("io fail").toList⟩, none, none, ("r1").toList⟩
      stW reqW).2.2.1 ⟨("XX001").toList, ("io fail").toList⟩ rfl (by decide)
      (by decide) (by decide) (by decide) (by decide) rfl (by decide),
   (C6_error_statuses envW pfW ⟨none, some (("rev fail").toList), none, ("r1").toList⟩
      stW reqW).2.2.2 (("rev fail").toList) rfl (by decide) (by decide) (by decide)
      (by decide) (by decide) rfl rfl⟩

/-- C6 (counterexample): a persistence failure of the `review_tags` insert
does not produce a 500 error response with the failure message — the
handler answers 200 success with the inserted review and merely skips the
tag rows. -/
theorem C6_counterexample :
    (POSTreviews envW pfW ⟨none, none, some (("boom").toList), ("r1").toList⟩
        stW reqTagsW).1 =
      ⟨200, .okBody ⟨("r1").toList, ("d1").toList, some 5,
        some (("great driver").toList)⟩⟩ ∧
    (POSTreviews envW pfW ⟨none, none, some (("boom").toList), ("r1").toList⟩
        stW reqTagsW).2.reviewTags = [] := by
  refine ⟨by decide, by decide⟩

end RatedWheels
